import Mathlib

/-!
A shallow embedding of `src/compdb.ts` (the compilation-database resolution and
execution pipeline of a compiler-explorer extension), together with theorems
settling a list of claims about it.

Strings are modelled by Lean `String` (the source is ASCII-clean in every case
relevant here, so JS UTF-16 code-unit indexing agrees with code-point
indexing).  Asynchronous, effectful code is modelled by explicit state passing
and, for the cancellation protocol, by a step relation on an explicit state
type.  Fallible operations return `Option` (`none` = a thrown exception /
rejected promise).
-/

set_option autoImplicit false

/-- `interface CompileCommand` from `src/compdb.ts`: one entry of the
compilation database. -/
structure CompileCommand where
  directory : String
  command : String
  file : String
  arguments : List String
deriving DecidableEq

/-- `const cxxfiltExe = 'c++filt'` from `src/compdb.ts`. -/
def cxxfiltExe : String := "c++filt"

/-!
## ArgvSplitter: `splitWhitespace`

The source iterates over the characters of the input, maintaining a quote
context `quoteChar : string | undefined` and a flag `shouldEscape : boolean`,
and pushes slices of the *original* string delimited by unquoted spaces
(`str.slice(strStart, i)`), discarding empty slices.  A slice therefore keeps
every non-delimiter character it covers, including quote characters and
backslashes.  We factor the per-character state update into `scanStep` and
carry the current slice as an accumulator, which is equivalent to keeping the
start index of the slice.
-/

/-- The per-character state update of `splitWhitespace` (`src/compdb.ts`,
the `switch` statement): a backslash toggles `shouldEscape`; an unescaped
single or double quote closes an identical open quote and otherwise opens a
quote of its kind; every other character leaves the state unchanged.  The
state is `(quoteChar, shouldEscape)`. -/
def scanStep (st : Option Char × Bool) (ch : Char) : Option Char × Bool :=
  if ch = '\\' then (st.1, !st.2)
  else if ch = '\'' then
    if st.2 then st
    else if st.1 = some '\'' then (none, st.2) else (some '\'', st.2)
  else if ch = '"' then
    if st.2 then st
    else if st.1 = some '"' then (none, st.2) else (some '"', st.2)
  else st

/-- The character loop of `splitWhitespace`: `cur` is the slice accumulated
since the last delimiter (`str.slice(strStart, i)` in the source).  A space
outside any quote context pushes the nonempty current slice and starts a new
one; every other character (including spaces inside quotes, quote characters
and backslashes) stays in the slice.  At the end of the string the final
nonempty slice is pushed. -/
def splitWhitespaceAux (st : Option Char × Bool) (cur : List Char) :
    List Char → List (List Char)
  | [] => if cur.isEmpty then [] else [cur]
  | ch :: rest =>
    if ch = ' ' && st.1.isNone then
      if cur.isEmpty then splitWhitespaceAux (scanStep st ch) [] rest
      else cur :: splitWhitespaceAux (scanStep st ch) [] rest
    else splitWhitespaceAux (scanStep st ch) (cur ++ [ch]) rest

/-- `splitWhitespace` from `src/compdb.ts` (the spec calls it
`ArgvSplitter.split`). -/
def splitWhitespace (s : String) : List String :=
  (splitWhitespaceAux (none, false) [] s.data).map String.mk

/-!
## CommandReconstructor: `constructCompileCommand` and `preprocess`
-/

/-- The stateful `args.filter` pass of `constructCompileCommand`
(`src/compdb.ts`): the boolean is the captured `isOutfile` variable.  When it
is clear, `-o` is dropped and arms the flag, `-c` and `-g` are dropped, and
any other token is kept; when it is armed, the token (the output-file value)
is dropped and the flag clears.  An `-o` that is the final token simply leaves
the armed flag with nothing left to consume. -/
def filterFlags : Bool → List String → List String
  | _, [] => []
  | true, _ :: rest => filterFlags false rest
  | false, arg :: rest =>
    if arg = "-o" then filterFlags true rest
    else if arg = "-c" then filterFlags false rest
    else if arg = "-g" then filterFlags false rest
    else arg :: filterFlags false rest

/-- `constructCompileCommand` from `src/compdb.ts`: a non-empty `command`
string is split and replaces `args`; then `args[0] = directory + '/' +
args[0]` (on an empty JS array this reads `undefined` and stores the string
`directory + "/undefined"`, which we reproduce literally), and the
`-c`/`-g`/`-o <value>` filter runs. -/
def constructCompileCommand (command : String) (args : List String)
    (directory : String) : List String :=
  let args := if command.length > 0 then splitWhitespace command else args
  let args := match args with
    | [] => [directory ++ "/" ++ "undefined"]
    | a :: rest => (directory ++ "/" ++ a) :: rest
  filterFlags false args

/-- The per-entry body of `CompilationDatabase.preprocess` (`src/compdb.ts`):
rebuild `arguments` via `constructCompileCommand`, drop every token equal to
the entry's `file`, and clear the `command` string. -/
def preprocessEntry (c : CompileCommand) : CompileCommand :=
  let args := constructCompileCommand c.command c.arguments c.directory
  { c with arguments := args.filter (· != c.file), command := "" }

/-- `CompilationDatabase.preprocess` (`src/compdb.ts`): the in-place loop over
all entries, modelled as a map. -/
def preprocess (commands : List CompileCommand) : List CompileCommand :=
  commands.map preprocessEntry

/-!
## The commands index (`Map<string, CompileCommand>`)

A JS `Map` with string keys is modelled as an association list; `set`
overwrites an existing binding in place (preserving insertion order) and
otherwise appends, exactly like `Map.prototype.set`.
-/

/-- The commands index of a `CompilationDatabase`. -/
abbrev CommandMap := List (String × CompileCommand)

/-- `Map.prototype.set` for the commands index. -/
def mapSet (k : String) (v : CompileCommand) : CommandMap → CommandMap
  | [] => [(k, v)]
  | (k', v') :: rest =>
    if k' = k then (k, v) :: rest else (k', v') :: mapSet k v rest

/-- `Map.prototype.get` for the commands index. -/
def mapGet (m : CommandMap) (k : String) : Option CompileCommand :=
  (m.find? (fun e => e.1 == k)).map (·.2)

/-- The success path of `CompilationDatabase.load` (`src/compdb.ts`) after the
file has been read and `JSON.parse` has produced the entry list: preprocess
every entry and index by `file` via `ccommands.set(command.file, command)`
(last write wins on duplicate keys). -/
def buildIndex (entries : List CompileCommand) : CommandMap :=
  (preprocess entries).foldl (fun m c => mapSet c.file c m) []

/-- `CompilationDatabase.load` (`src/compdb.ts`), with the effectful prefix —
`workspace.fs.readFile` plus `JSON.parse` — abstracted into its result: `none`
when reading or parsing throws, `some entries` otherwise.  On success the
built index is returned; on failure the exception propagates (`none`). -/
def CompilationDatabase.load (parsed : Option (List CompileCommand)) :
    Option CommandMap :=
  parsed.map buildIndex

/-- The mutable state of one `CompilationDatabase` instance that the
change-signal handler touches: the `commands` field. -/
structure DBState where
  commands : CommandMap
deriving DecidableEq

/-- The `onDidChange` handler installed in the `CompilationDatabase`
constructor (`src/compdb.ts`): `this.commands = await CompilationDatabase.load(...)`.
When `load` rejects, the exception propagates before the assignment, so
`commands` is left untouched; when it succeeds, the whole field is replaced by
the freshly built index. -/
def handleDidChange (st : DBState) (parsed : Option (List CompileCommand)) :
    DBState :=
  match CompilationDatabase.load parsed with
  | none => st
  | some m => { st with commands := m }

/-!
## `String.prototype.replace` with a string pattern, and `CompilationDatabase.get`
-/

/-- JS `String.prototype.replace(pat, rep)` with a string pattern on character
lists: the first occurrence of `pat` is replaced by `rep`; a string without an
occurrence is returned unchanged; the empty pattern matches at position 0. -/
def replaceFirstL (pat rep : List Char) : List Char → List Char
  | [] => if pat.isPrefixOf ([] : List Char) then rep else []
  | c :: cs =>
    if pat.isPrefixOf (c :: cs) then rep ++ (c :: cs).drop pat.length
    else c :: replaceFirstL pat rep cs

/-- JS `String.prototype.replace` (string pattern, first occurrence only). -/
def replaceFirst (s pat rep : String) : String :=
  String.mk (replaceFirstL pat.data rep.data s.data)

/-- The index of the first position of `s` at which `pat` matches as a
substring, if any.  This is the specification-level description of what the
JS `replace` call in `CompilationDatabase.get` keys on. -/
def firstMatchIdxL (pat : List Char) : List Char → Option Nat
  | [] => if pat.isPrefixOf ([] : List Char) then some 0 else none
  | c :: cs =>
    if pat.isPrefixOf (c :: cs) then some 0
    else (firstMatchIdxL pat cs).map (· + 1)

/-- Deletion of the first occurrence of `pat` as a substring anywhere in `s`;
identity when `pat` does not occur.  Stated from the claim's words, to be
compared with the source's `replaceFirst s pat ""`. -/
def deleteFirstOccurrence (s pat : String) : String :=
  match firstMatchIdxL pat.data s.data with
  | none => s
  | some i => String.mk (s.data.take i ++ s.data.drop (i + pat.data.length))

/-- `CompilationDatabase.get` (`src/compdb.ts`): the lookup key is
`srcUri.fsPath.replace(buildDirectory + "/", "")` — a first-occurrence
substring replacement, not a prefix-anchored relative path — and the index is
consulted with it.  The configuration read that produces `buildDirectory` is
passed in as a value. -/
def CompilationDatabase.get (commands : CommandMap) (buildDirectory : String)
    (fsPath : String) : Option CompileCommand :=
  let relativeFp := replaceFirst fsPath (buildDirectory ++ "/") ""
  mapGet commands relativeFp

/-!
## The process-wide registry (`CompilationDatabase.compdbs`) and
`CompilationDatabase.for`

`compdbs` is a JS `Map<Uri, CompilationDatabase>`.  A JS `Map` compares object
keys by reference (SameValueZero), so a `vscode.Uri` key matches only the very
same allocation.  We model a `Uri` as its path plus an allocation identifier,
and `Uri.joinPath` / `Uri.parse` as allocating a fresh identifier, which is
what the JS runtime does on every call.
-/

/-- A `vscode.Uri` object: its path and its allocation identity. -/
structure UriObj where
  path : String
  allocId : Nat
deriving DecidableEq

/-- The registry state: `CompilationDatabase.compdbs` (instances are
identified by an allocation counter) plus the allocation counters for `Uri`
objects and database instances. -/
structure RegistryState where
  compdbs : List (UriObj × Nat)
  nextUriId : Nat
  nextDbId : Nat
deriving DecidableEq

/-- The empty registry at process start. -/
def RegistryState.initial : RegistryState := ⟨[], 0, 0⟩

/-- `Map.prototype.get` on `compdbs`: object keys compare by reference,
i.e. full `UriObj` equality (path *and* allocation identity). -/
def registryGet (m : List (UriObj × Nat)) (k : UriObj) : Option Nat :=
  (m.find? (fun e => e.1 == k)).map (·.2)

/-- `CompilationDatabase.for` (`src/compdb.ts`) for a fixed resolved build
directory: build `compileCommandsFile` with `Uri.joinPath(Uri.parse(...), ...)`
(a fresh `Uri` allocation), look it up in `compdbs`, and on a miss construct a
new instance and register it.  Loading is irrelevant to the registry behaviour
and is elided.  Returns the instance identifier and the new state. -/
def CompilationDatabase.forOp (st : RegistryState) (buildDirectory : String) :
    Nat × RegistryState :=
  let compileCommandsFile : UriObj :=
    ⟨buildDirectory ++ "/" ++ "compile_commands.json", st.nextUriId⟩
  let st := { st with nextUriId := st.nextUriId + 1 }
  match registryGet st.compdbs compileCommandsFile with
  | some db => (db, st)
  | none =>
    let db := st.nextDbId
    (db, { st with
            compdbs := st.compdbs ++ [(compileCommandsFile, db)],
            nextDbId := st.nextDbId + 1 })

/-!
## Subprocesses, `checkStdErr`, and `onExit`

A spawned child process is modelled by what the pipeline observes of it: the
chunks its standard output yields, its accumulated standard-error text, its
exit code, and whether an `error` event fires (spawn failure).  `onExit`
resolves with the exit code and rejects on an `error` event.
-/

/-- What one spawned subprocess looks like to `runCompiler` / `checkStdErr`
(`src/compdb.ts`). -/
structure Subproc where
  stdoutChunks : List String
  stderr : String
  exitCode : Int
  errorEvent : Bool
deriving DecidableEq

/-- The result of `checkStdErr`: its boolean return value, the lines it
appended to the output channel, and whether it called `show()` on the
channel. -/
structure CheckResult where
  ok : Bool
  logged : List String
  shown : Bool
deriving DecidableEq

/-- `CompilationDatabase.checkStdErr` (`src/compdb.ts`): accumulate the
process's standard error; if non-empty, log it and show the output channel;
then `if (await onExit(process)) return false` — a non-zero exit code fails,
a rejection of `onExit` (an `error` event) fails via the `catch`, and only an
exit code of zero yields `true`.  Note that non-empty standard error alone
does not affect the return value. -/
def checkStdErr (p : Subproc) : CheckResult :=
  let logged := if p.stderr.length > 0 then [p.stderr] else []
  let shown := decide (p.stderr.length > 0)
  let ok := if p.errorEvent then false else if p.exitCode ≠ 0 then false else true
  ⟨ok, logged, shown⟩

/-!
## Path handling (`Path.parse`, `Path.join`, `Path.resolve`)
-/

/-- `Path.parse`'s result, restricted to the fields `findCxxFiltExe` uses. -/
structure ParsedPath where
  dir : String
  name : String
  ext : String
deriving DecidableEq

/-- Index of the last occurrence of a character in a list, if any. -/
def lastIdxOf (c : Char) : List Char → Option Nat
  | [] => none
  | x :: xs =>
    match lastIdxOf c xs with
    | some i => some (i + 1)
    | none => if x = c then some 0 else none

/-- Node's POSIX `Path.parse` on the inputs arising here (no trailing
slashes): `dir` is everything before the last `/` (`/` itself when the path is
`/x`, empty when there is no slash), the base is everything after it, and
`ext`/`name` split the base at its last `.` unless that dot is the base's
first character. -/
def posixParse (p : String) : ParsedPath :=
  let db : List Char × List Char :=
    match lastIdxOf '/' p.data with
    | none => ([], p.data)
    | some i => (if i = 0 then ['/'] else p.data.take i, p.data.drop (i + 1))
  let ne : List Char × List Char :=
    match lastIdxOf '.' db.2 with
    | none => (db.2, [])
    | some j => if j = 0 then (db.2, []) else (db.2.take j, db.2.drop j)
  ⟨String.mk db.1, String.mk ne.1, String.mk ne.2⟩

/-- Node's `Path.join` on three segments, for segments that are already
normalized (no `.`/`..` components or duplicate slashes, as in every call
site here): empty segments are ignored, the rest are joined with `/`, and the
join of nothing is `.`. -/
def pathJoin3 (a b c : String) : String :=
  let segs := [a, b, c].filter (fun s => s ≠ "")
  if segs.isEmpty then "." else String.intercalate "/" segs

/-- Node's `Path.resolve(dir, file)` for the call in `findCxxFiltExe`'s
directory scan: an absolute `file` stands alone, a relative one is appended
to `dir`. -/
def pathResolve (dir file : String) : String :=
  if file.startsWith "/" then file else dir ++ "/" ++ file

/-!
## `DemanglerLocator`: `findCxxFiltExe`, `findExecutablePath`

The filesystem and the external `which` command are oracles supplied as a
value; `none` from `readdir` models a rejected `fs.promises.readdir` (the
exception propagates out of `findCxxFiltExe`), and `none` from `which` models
the output stream of the spawned `which` process throwing (caught, yielding
`undefined`).
-/

/-- The filesystem and PATH environment `findCxxFiltExe` probes. -/
structure FSModel where
  readdir : String → Option (List String)
  existsSync : String → Bool
  which : String → Option Subproc

/-- `CompilationDatabase.findExecutablePath` (`src/compdb.ts`): spawn
`which exe`, collect its standard output, and — as literally written in the
source — return the parsed directory of that output when `checkStdErr`
reports *failure* (`if (!await this.checkStdErr(which)) return ...`), and
`undefined` otherwise or when the stream throws. -/
def findExecutablePath (fs : FSModel) (exe : String) : Option String :=
  match fs.which exe with
  | none => none
  | some p =>
    let resolvedPath := String.join p.stdoutChunks
    if (checkStdErr p).ok then none
    else some (posixParse resolvedPath).dir

/-- JS `String.prototype.endsWith` on the directory entries scanned by
`findCxxFiltExe`: a suffix test, stated directly on the character lists. -/
def jsEndsWith (s suffix : String) : Bool := suffix.data.isSuffixOf s.data

/-- The `findExePath` closure inside `findCxxFiltExe` (`src/compdb.ts`):
given a directory (or `undefined`), list it and return the first file whose
name ends with `c++filt` plus the compiler's extension, resolved against the
directory.  The outer `Option` is exception propagation from `readdir`. -/
def findExePath (fs : FSModel) (suffix : String) :
    Option String → Option (Option String)
  | none => some none
  | some dir =>
    match fs.readdir dir with
    | none => none
    | some files =>
      some ((files.find? (fun f => jsEndsWith f suffix)).map (pathResolve dir))

/-- The name-rewriting chain of `findCxxFiltExe` (`src/compdb.ts`): six
`String.replace` calls applied in sequence — `clang++`, `clang`, `g++`,
`gcc`, `c++`, `cc` — each replacing the first occurrence in the *current*
string, so an earlier substitution's output can itself be rewritten by a
later pattern. -/
def guessCxxFiltName (name : String) : String :=
  replaceFirst (replaceFirst (replaceFirst (replaceFirst (replaceFirst
    (replaceFirst name "clang++" cxxfiltExe)
    "clang" cxxfiltExe) "g++" cxxfiltExe) "gcc" cxxfiltExe)
    "c++" cxxfiltExe) "cc" cxxfiltExe

/-- `CompilationDatabase.findCxxFiltExe` (`src/compdb.ts`): search the
compiler's own directory (or, for a bare compiler name, the directory that
`findExecutablePath` yields) for a file ending in `c++filt` plus the
compiler's extension; otherwise rewrite the compiler's base name via
`guessCxxFiltName`, join it back into a path, and return that path if it
exists, else the bare `c++filt`.  `none` is a propagated `readdir`
exception. -/
def findCxxFiltExe (fs : FSModel) (compExe : String) : Option String :=
  let parsed := posixParse compExe
  let cxxfiltNameWithExt := cxxfiltExe ++ parsed.ext
  let searched : Option (Option String) :=
    if parsed.dir.length = 0 then
      findExePath fs cxxfiltNameWithExt (findExecutablePath fs compExe)
    else
      findExePath fs cxxfiltNameWithExt (some parsed.dir)
  match searched with
  | none => none
  | some (some cxxfilt) => some cxxfilt
  | some none =>
    let name := guessCxxFiltName parsed.name
    let cxxfilt := pathJoin3 parsed.dir name parsed.ext
    some (if fs.existsSync cxxfilt then cxxfilt else cxxfiltExe)

/-!
## `CompilationPipeline`: the relay portion of `runCompiler`

`runCompiler` spawns the compiler and the demangler, relays the compiler's
standard-output chunks into the demangler's standard input (checking the
cancellation token before each chunk), checks the compiler's exit, drains the
demangler's standard output (again checking the token before each chunk),
checks the demangler's exit, and post-filters the text; the surrounding
`try`/`catch` kills both processes on any thrown error before re-throwing.

The cancellation token is an oracle `ctok : Nat → Bool` giving the value of
`isCancellationRequested` at the n-th poll (each poll happens at a stream
suspension point, where other tasks may have run and cancelled the token).
-/

/-- Modelled from the spec: `splitLines` is imported from `src/utils.ts`,
which is not among the provided sources.  Spec §4.5 step 10 says the output is
"split ... into lines" and the §8 example (`"\t.text\n# comment\n..."`)
fixes splitting at newline characters. -/
def splitLines (s : String) : List String := s.splitOn "\n"

/-- The return expression of `runCompiler` (`src/compdb.ts`): drop every line
whose leading-whitespace-trimmed form starts with `#` or `;`, and rejoin with
newlines. -/
def filterDirectives (asm : String) : String :=
  String.intercalate "\n" ((splitLines asm).filter (fun line =>
    let t := line.trimLeft
    !(t.startsWith "#") && !(t.startsWith ";")))

/-- The failures `runCompiler` can throw from its relay phase. -/
inductive CompileErr
  | cancelled
  | compilationFailed
deriving DecidableEq

instance : DecidableEq (Except CompileErr String) := fun a b =>
  match a, b with
  | .error x, .error y =>
    if h : x = y then .isTrue (congrArg Except.error h)
    else .isFalse (fun he => h (Except.error.inj he))
  | .ok x, .ok y =>
    if h : x = y then .isTrue (congrArg Except.ok h)
    else .isFalse (fun he => h (Except.ok.inj he))
  | .error _, .ok _ => .isFalse (fun he => Except.noConfusion he)
  | .ok _, .error _ => .isFalse (fun he => Except.noConfusion he)

/-- The observable outcome of one `runCompiler` relay phase: the returned
text or thrown failure, whether each subprocess was killed by the `catch`,
and the chunks that were written to the demangler's standard input. -/
structure RunResult where
  result : Except CompileErr String
  cxxKilled : Bool
  filtKilled : Bool
  written : List String
deriving DecidableEq

/-- One `for await (let chunk of stream)` loop of `runCompiler` with its
leading cancellation check: `polls` counts the token polls made so far.
Returns the poll counter after the loop, the chunks consumed before any
cancellation, and whether cancellation was observed (the thrown
"operation cancelled"). -/
def relayLoop (ctok : Nat → Bool) : Nat → List String → Nat × List String × Bool
  | polls, [] => (polls, [], false)
  | polls, c :: cs =>
    if ctok polls then (polls + 1, [], true)
    else
      let r := relayLoop ctok (polls + 1) cs
      (r.1, c :: r.2.1, r.2.2)

/-- The relay phase of `CompilationDatabase.runCompiler` (`src/compdb.ts`),
from the spawn of the two processes to the return/throw: relay the compiler's
chunks (token checked before each write), fail if `checkStdErr` rejects the
compiler, drain the demangler (token checked before each chunk), fail if
`checkStdErr` rejects the demangler, and otherwise return the
directive-filtered concatenation.  The `catch` kills both subprocesses on
every failure path. -/
def runCompilerModel (ctok : Nat → Bool) (cxx cxxfilt : Subproc) : RunResult :=
  let r1 := relayLoop ctok 0 cxx.stdoutChunks
  if r1.2.2 then ⟨.error .cancelled, true, true, r1.2.1⟩
  else if !(checkStdErr cxx).ok then ⟨.error .compilationFailed, true, true, r1.2.1⟩
  else
    let r2 := relayLoop ctok r1.1 cxxfilt.stdoutChunks
    if r2.2.2 then ⟨.error .cancelled, true, true, r1.2.1⟩
    else if !(checkStdErr cxxfilt).ok then ⟨.error .compilationFailed, true, true, r1.2.1⟩
    else ⟨.ok (filterDirectives (String.join r2.2.1)), false, false, r1.2.1⟩

/-!
## `compile`: single-flight cancellation across overlapping runs

`compile` runs on a single-threaded cooperative event loop: the code between
two `await` suspension points is atomic.  Its prologue — cancel the token
source held in `this.compileCancellationTokenSource`, create a fresh source,
store it — is synchronous, hence one atomic step.  Each chunk iteration of
`runCompiler` (token check plus relay of one chunk) is one atomic step between
suspensions.  After the final chunk check, `runCompiler` still awaits
(`checkStdErr`, process exit) before returning, and `compile`'s `finally`
clears `this.compileCancellationTokenSource` unconditionally; we collapse
those trailing awaits into one final step that returns the output.

`chunks r` is the total number of chunk-boundary token checks run `r` makes;
`tokenField` is `this.compileCancellationTokenSource`; `cancelled p` records
whether run `p`'s token source has been cancelled.
-/

/-- Where one `compile` invocation stands: not yet started, past `k` chunk
checks, or finished (`produced = true` iff it returned assembly text rather
than throwing). -/
inductive RunPhase
  | idle
  | relaying (k : Nat)
  | finished (produced : Bool)
deriving DecidableEq

/-- The shared state of one `CompilationDatabase` instance together with the
progress of each of the competing `compile` invocations. -/
structure CompileState where
  cancelled : List Bool
  tokenField : Option Nat
  phases : List RunPhase
deriving DecidableEq

/-- One atomic step of run `r` (the step relation of the cooperative event
loop restricted to one database instance).  `idle`: the synchronous prologue
of `compile` — `this.compileCancellationTokenSource?.cancel()` on the stored
owner, then install run `r`'s fresh source.  `relaying k` with checks left:
poll the token; a cancelled token throws (the run finishes without output and
the `finally` clears the field), otherwise one chunk is relayed.  `relaying k`
with no checks left: the trailing awaits and the return — output is produced
regardless of the token, and the `finally` clears the field
unconditionally. -/
def stepRun (chunks : List Nat) (s : CompileState) (r : Nat) : CompileState :=
  match s.phases[r]? with
  | some .idle =>
    let cancelled := match s.tokenField with
      | some p => s.cancelled.set p true
      | none => s.cancelled
    ⟨cancelled, some r, s.phases.set r (.relaying 0)⟩
  | some (.relaying k) =>
    if k < chunks.getD r 0 then
      if s.cancelled.getD r false then
        ⟨s.cancelled, none, s.phases.set r (.finished false)⟩
      else ⟨s.cancelled, s.tokenField, s.phases.set r (.relaying (k + 1))⟩
    else ⟨s.cancelled, none, s.phases.set r (.finished true)⟩
  | _ => s

/-- The initial state for `n` pending `compile` invocations. -/
def initCompileState (n : Nat) : CompileState :=
  ⟨List.replicate n false, none, List.replicate n .idle⟩

/-- Run a schedule (an interleaving, as a list of run identifiers) from the
initial state. -/
def execSchedule (chunks : List Nat) (sched : List Nat) : CompileState :=
  sched.foldl (stepRun chunks) (initCompileState chunks.length)

/-!
# Theorems

## C3: the worked `ArgvSplitter.split` example
-/

/-- C3, counterexample: on `"gcc -O2 'foo bar.cpp' -o out"` the claimed token
list is wrong — `splitWhitespace` pushes slices of the original string, so the
single-quote characters stay inside the grouped token and the third token is
`'foo bar.cpp'`, not `foo bar.cpp`. -/
theorem splitWhitespace_example_cex :
    splitWhitespace "gcc -O2 'foo bar.cpp' -o out" ≠
      ["gcc", "-O2", "foo bar.cpp", "-o", "out"] := by
  decide

/-- C3 (amended): `splitWhitespace "gcc -O2 'foo bar.cpp' -o out"` returns
exactly five tokens, the single-quoted region is grouped into one token, but
the quote characters are retained in that token: the result is
`["gcc", "-O2", "'foo bar.cpp'", "-o", "out"]`. -/
theorem splitWhitespace_example :
    splitWhitespace "gcc -O2 'foo bar.cpp' -o out" =
      ["gcc", "-O2", "'foo bar.cpp'", "-o", "out"] := by
  decide

/-!
## C9: the backslash escape flag
-/

/-- C9, counterexample: in `"a\b'c d'"` the first quote appears two characters
after the backslash, so by the claim it should have regained its
quote-toggling meaning and the space should be quoted, making the whole input
one token; in fact `shouldEscape` is still set (nothing but a backslash ever
changes it), the quote stays literal, and the input splits at the space into
two tokens. -/
theorem splitWhitespace_escape_cex :
    splitWhitespace "a\\b'c d'" = ["a\\b'c", "d'"] ∧
      splitWhitespace "a\\b'c d'" ≠ ["a\\b'c d'"] := by
  decide

/-- `scanStep` changes the escape flag exactly at backslashes: it flips there
and is preserved by every other character. -/
theorem scanStep_snd (st : Option Char × Bool) (ch : Char) :
    (scanStep st ch).2 = if ch = '\\' then !st.2 else st.2 := by
  unfold scanStep
  split_ifs <;> rfl

/-- The escape flag after a character sequence is the initial flag xor-ed with
the parity of the number of backslashes seen. -/
theorem foldl_scanStep_snd (cs : List Char) :
    ∀ st : Option Char × Bool,
      (cs.foldl scanStep st).2 = (st.2 != decide (cs.count '\\' % 2 = 1)) := by
  induction cs with
  | nil => intro st; simp
  | cons c cs ih =>
    intro st
    rw [List.foldl_cons, ih, scanStep_snd]
    by_cases h : c = '\\'
    · subst h
      simp only [if_pos rfl, List.count_cons_self]
      rcases Nat.even_or_odd (cs.count '\\') with he | ho
      · have h0 : cs.count '\\' % 2 = 0 := Nat.even_iff.mp he
        have h1 : (cs.count '\\' + 1) % 2 = 1 := by omega
        simp [h0, h1]
      · have h1 : cs.count '\\' % 2 = 1 := Nat.odd_iff.mp ho
        have h0 : (cs.count '\\' + 1) % 2 = 0 := by omega
        simp [h0, h1]
    · rw [if_neg h, List.count_cons_of_ne (fun hh => h hh.symm)]

/-- C9 (amended): the backslash handling of `splitWhitespace`'s state machine
`scanStep` is a persistent toggle, not a one-character escape.  Every
backslash seen — inside or outside quotes — flips the escape flag and nothing
else ever changes it, so after any prefix the flag equals the parity of the
backslashes in that prefix; while the flag is set every quote character is
literal (it does not toggle the quote context), no matter how far it is from
the last backslash. -/
theorem scanStep_escape_behaviour :
    (∀ (cs : List Char) (st : Option Char × Bool),
      (cs.foldl scanStep st).2 = (st.2 != decide (cs.count '\\' % 2 = 1))) ∧
    (∀ q : Option Char, scanStep (q, true) '\'' = (q, true)) ∧
    (∀ q : Option Char, scanStep (q, true) '"' = (q, true)) ∧
    (∀ (q : Option Char) (e : Bool), scanStep (q, e) '\\' = (q, !e)) := by
  refine ⟨fun cs st => foldl_scanStep_snd cs st, fun q => ?_, fun q => ?_, fun q e => ?_⟩
  · rfl
  · rfl
  · rfl

/-!
## C4: the post-preprocessing argument-vector invariant
-/

/-- A directory-joined executable path contains a slash, so it can never be
one of the bare flag tokens `-c`, `-g`, `-o`. -/
theorem joined_ne_flag (d a f : String) (hf : f.data = ['-', 'c'] ∨ f.data = ['-', 'g'] ∨ f.data = ['-', 'o']) :
    d ++ "/" ++ a ≠ f := by
  intro h
  have h1 : (d ++ "/" ++ a).data = d.data ++ "/".data ++ a.data := rfl
  have hmem : '/' ∈ (d ++ "/" ++ a).data := by
    rw [h1]
    exact List.mem_append.mpr (Or.inl (List.mem_append.mpr (Or.inr (by decide))))
  rw [h] at hmem
  rcases hf with hf | hf | hf <;> rw [hf] at hmem <;> simp at hmem
/-- No output of `filterFlags` is `-o`, `-c` or `-g`: the filter drops all
three (and the token following an `-o` in value position). -/
theorem mem_filterFlags {x : String} :
    ∀ (b : Bool) (l : List String), x ∈ filterFlags b l →
      x ≠ "-o" ∧ x ≠ "-c" ∧ x ≠ "-g" := by
  intro b l
  induction l generalizing b with
  | nil => cases b <;> simp [filterFlags]
  | cons arg rest ih =>
    cases b with
    | true =>
      intro h
      exact ih false h
    | false =>
      simp only [filterFlags]
      split_ifs with h1 h2 h3
      · exact ih true
      · exact ih false
      · exact ih false
      · intro h
        rcases List.mem_cons.mp h with rfl | h
        · exact ⟨h1, h2, h3⟩
        · exact ih false h

/-- `filterFlags` keeps a leading token that is none of the three flags. -/
theorem filterFlags_cons_of_ne (a : String) (l : List String)
    (h1 : a ≠ "-o") (h2 : a ≠ "-c") (h3 : a ≠ "-g") :
    filterFlags false (a :: l) = a :: filterFlags false l := by
  simp only [filterFlags, if_neg h1, if_neg h2, if_neg h3]

/-- C4: for every compilation-database entry whose reconstructed argument
list is non-empty (`a :: rest` is the split command string when `command` is
non-empty, the recorded `arguments` otherwise) and whose directory-joined
compiler path differs from the recorded source file name, the stored
entry after preprocessing has the directory-joined compiler path as its first
element and contains no `-c`, no `-g`, no `-o` (hence no `-o` flag with a
value), and no token equal to the source file name. -/
theorem preprocessEntry_invariant
    (directory command file : String) (arguments : List String)
    (a : String) (rest : List String)
    (hsplit : (if command.length > 0 then splitWhitespace command else arguments) = a :: rest)
    (hhead : directory ++ "/" ++ a ≠ file) :
    (preprocessEntry ⟨directory, command, file, arguments⟩).arguments.head? =
        some (directory ++ "/" ++ a) ∧
      "-c" ∉ (preprocessEntry ⟨directory, command, file, arguments⟩).arguments ∧
      "-g" ∉ (preprocessEntry ⟨directory, command, file, arguments⟩).arguments ∧
      "-o" ∉ (preprocessEntry ⟨directory, command, file, arguments⟩).arguments ∧
      file ∉ (preprocessEntry ⟨directory, command, file, arguments⟩).arguments := by
  have hargs : (preprocessEntry ⟨directory, command, file, arguments⟩).arguments =
      (filterFlags false ((directory ++ "/" ++ a) :: rest)).filter (· != file) := by
    simp only [preprocessEntry, constructCompileCommand, hsplit]
  have hj1 : directory ++ "/" ++ a ≠ "-o" := joined_ne_flag _ _ _ (Or.inr (Or.inr rfl))
  have hj2 : directory ++ "/" ++ a ≠ "-c" := joined_ne_flag _ _ _ (Or.inl rfl)
  have hj3 : directory ++ "/" ++ a ≠ "-g" := joined_ne_flag _ _ _ (Or.inr (Or.inl rfl))
  have hbne : ((directory ++ "/" ++ a) != file) = true := bne_iff_ne.mpr hhead
  have hfilter : List.filter (fun x => x != file)
        ((directory ++ "/" ++ a) :: filterFlags false rest) =
      (directory ++ "/" ++ a) :: List.filter (fun x => x != file) (filterFlags false rest) := by
    simp [List.filter_cons, hbne]
  rw [hargs, filterFlags_cons_of_ne _ _ hj1 hj2 hj3, hfilter]
  refine ⟨rfl, ?_, ?_, ?_, ?_⟩
  · intro h
    rcases List.mem_cons.mp h with h | h
    · exact hj2 h.symm
    · exact (mem_filterFlags false rest (List.mem_of_mem_filter h)).2.1 rfl
  · intro h
    rcases List.mem_cons.mp h with h | h
    · exact hj3 h.symm
    · exact (mem_filterFlags false rest (List.mem_of_mem_filter h)).2.2 rfl
  · intro h
    rcases List.mem_cons.mp h with h | h
    · exact hj1 h.symm
    · exact (mem_filterFlags false rest (List.mem_of_mem_filter h)).1 rfl
  · intro h
    rcases List.mem_cons.mp h with h | h
    · exact hhead h.symm
    · have := List.of_mem_filter h
      simp at this

/-- C4, witness: the spec's own worked example
`reconstruct("", ["gcc","-c","a.cpp","-g","-o","a.o"], "/build")` indexed
under file `a.cpp`: the preprocessed arguments are exactly `["/build/gcc"]`. -/
theorem preprocessEntry_invariant_witness :
    ((if ("" : String).length > 0 then splitWhitespace ""
        else ["gcc", "-c", "a.cpp", "-g", "-o", "a.o"]) =
      "gcc" :: ["-c", "a.cpp", "-g", "-o", "a.o"]) ∧
    "/build" ++ "/" ++ "gcc" ≠ "a.cpp" ∧
    ((preprocessEntry ⟨"/build", "", "a.cpp", ["gcc", "-c", "a.cpp", "-g", "-o", "a.o"]⟩).arguments.head? =
        some ("/build" ++ "/" ++ "gcc") ∧
      "-c" ∉ (preprocessEntry ⟨"/build", "", "a.cpp", ["gcc", "-c", "a.cpp", "-g", "-o", "a.o"]⟩).arguments ∧
      "-g" ∉ (preprocessEntry ⟨"/build", "", "a.cpp", ["gcc", "-c", "a.cpp", "-g", "-o", "a.o"]⟩).arguments ∧
      "-o" ∉ (preprocessEntry ⟨"/build", "", "a.cpp", ["gcc", "-c", "a.cpp", "-g", "-o", "a.o"]⟩).arguments ∧
      "a.cpp" ∉ (preprocessEntry ⟨"/build", "", "a.cpp", ["gcc", "-c", "a.cpp", "-g", "-o", "a.o"]⟩).arguments) :=
  ⟨by decide, by decide,
    preprocessEntry_invariant "/build" "" "a.cpp" ["gcc", "-c", "a.cpp", "-g", "-o", "a.o"]
      "gcc" ["-c", "a.cpp", "-g", "-o", "a.o"] (by decide) (by decide)⟩

/-!
## C8: reload on a change signal
-/

/-- C8: when a change signal triggers a reload and reading or parsing fails,
the instance's index is left exactly as it was (the exception propagates
before the assignment to `this.commands`); when the new contents parse, the
whole mapping is replaced by the index built from the new entries alone —
independent of the previous state, i.e. a replacement, not a merge. -/
theorem handleDidChange_atomic_replace :
    (∀ st : DBState, handleDidChange st none = st) ∧
    (∀ (st st' : DBState) (entries : List CompileCommand),
      (handleDidChange st (some entries)).commands = buildIndex entries ∧
      (handleDidChange st (some entries)).commands =
        (handleDidChange st' (some entries)).commands) :=
  ⟨fun _ => rfl, fun _ _ _ => ⟨rfl, rfl⟩⟩

/-!
## C10: the lookup key of `CompilationDatabase.get`
-/

/-- `String.replace` with an empty replacement deletes exactly the first
occurrence of the pattern (at the position `firstMatchIdxL` computes) and is
the identity when the pattern does not occur. -/
theorem replaceFirstL_empty_rep (pat : List Char) :
    ∀ s : List Char, replaceFirstL pat [] s =
      match firstMatchIdxL pat s with
      | none => s
      | some i => s.take i ++ s.drop (i + pat.length) := by
  intro s
  induction s with
  | nil =>
    by_cases h : pat.isPrefixOf ([] : List Char) <;>
      simp [replaceFirstL, firstMatchIdxL, h]
  | cons c cs ih =>
    by_cases h : pat.isPrefixOf (c :: cs)
    · simp [replaceFirstL, firstMatchIdxL, h]
    · simp only [replaceFirstL, firstMatchIdxL, if_neg h, ih]
      cases hm : firstMatchIdxL pat cs with
      | none => simp
      | some i =>
        have hd : i + 1 + pat.length = i + pat.length + 1 := by omega
        show c :: (List.take i cs ++ List.drop (i + pat.length) cs) =
          List.take (i + 1) (c :: cs) ++ List.drop (i + 1 + pat.length) (c :: cs)
        rw [List.take_succ_cons, hd, List.drop_succ_cons]
        simp

/-- C10: `CompilationDatabase.get` keys the index by deleting the first
occurrence of `buildDirectory + "/"` as a substring *anywhere* in the source
path (`String.replace` with a string pattern), and when that substring does
not occur the unmodified path itself is the key — so a file outside the build
directory is found only if it was indexed under its full absolute path. -/
theorem get_key_deletes_first_occurrence
    (commands : CommandMap) (buildDirectory fsPath : String) :
    CompilationDatabase.get commands buildDirectory fsPath =
      mapGet commands (deleteFirstOccurrence fsPath (buildDirectory ++ "/")) ∧
    (firstMatchIdxL (buildDirectory ++ "/").data fsPath.data = none →
      CompilationDatabase.get commands buildDirectory fsPath =
        mapGet commands fsPath) := by
  have hkey : replaceFirst fsPath (buildDirectory ++ "/") "" =
      deleteFirstOccurrence fsPath (buildDirectory ++ "/") := by
    unfold replaceFirst deleteFirstOccurrence
    rw [show ("" : String).data = [] from rfl, replaceFirstL_empty_rep]
    cases hm : firstMatchIdxL (buildDirectory ++ "/").data fsPath.data <;> rfl
  constructor
  · unfold CompilationDatabase.get
    rw [hkey]
  · intro hnone
    unfold CompilationDatabase.get
    rw [hkey]
    unfold deleteFirstOccurrence
    rw [hnone]

/-- C10, witness: with the build directory `/ws/build`, the path
`/ws/build/src/main.cpp` is keyed as `src/main.cpp`, and a path in which
`/ws/build/` does not occur is looked up unmodified. -/
theorem get_key_deletes_first_occurrence_witness :
    (CompilationDatabase.get [("src/main.cpp", ⟨"/ws/build", "", "src/main.cpp", []⟩)]
        "/ws/build" "/ws/build/src/main.cpp" =
      mapGet [("src/main.cpp", ⟨"/ws/build", "", "src/main.cpp", []⟩)]
        (deleteFirstOccurrence "/ws/build/src/main.cpp" ("/ws/build" ++ "/"))) ∧
    (firstMatchIdxL ("/ws/build" ++ "/").data "/other/src/x.cpp".data = none) ∧
    (CompilationDatabase.get [("src/main.cpp", ⟨"/ws/build", "", "src/main.cpp", []⟩)]
        "/ws/build" "/other/src/x.cpp" =
      mapGet [("src/main.cpp", ⟨"/ws/build", "", "src/main.cpp", []⟩)] "/other/src/x.cpp") :=
  ⟨(get_key_deletes_first_occurrence
      [("src/main.cpp", ⟨"/ws/build", "", "src/main.cpp", []⟩)]
      "/ws/build" "/ws/build/src/main.cpp").1,
    by decide,
    (get_key_deletes_first_occurrence
      [("src/main.cpp", ⟨"/ws/build", "", "src/main.cpp", []⟩)]
      "/ws/build" "/other/src/x.cpp").2 (by decide)⟩

/-!
## C2: the process-wide registry
-/

/-- C2, the code at the failing input: two consecutive
`CompilationDatabase.for` requests for the *same* build directory each
construct and register a fresh instance (identifiers 0 and 1), leaving two
registry entries whose database-file paths are equal.  `compdbs` is a
`Map<Uri, CompilationDatabase>` and a JS `Map` compares object keys by
reference, while `Uri.joinPath(Uri.parse(...), ...)` allocates a new `Uri`
on every call, so the `compdbs.get(...)` lookup — whose `if (compdb) return
compdb` shows the deduplication intent — can never hit. -/
theorem forOp_always_constructs :
    (CompilationDatabase.forOp RegistryState.initial "/ws").1 = 0 ∧
    (CompilationDatabase.forOp
        (CompilationDatabase.forOp RegistryState.initial "/ws").2 "/ws").1 = 1 ∧
    (CompilationDatabase.forOp
        (CompilationDatabase.forOp RegistryState.initial "/ws").2 "/ws").2.compdbs.map
        (fun e => e.1.path) =
      ["/ws/compile_commands.json", "/ws/compile_commands.json"] := by
  decide

/-!
## C1: overlapping `compile` runs and single-flight cancellation
-/

/-- C1, counterexample: schedule run 0 (one chunk check) through its prologue
and its only check, then let run 1 (no chunk checks) start — its prologue
cancels run 0's token — and run to completion; run 0 then resumes *past its
last chunk check* and also completes.  Both runs finish with
`finished true`, i.e. both produce assembly output, refuting "never do two
overlapping runs on the same instance both produce output". -/
theorem execSchedule_both_produce_cex :
    (execSchedule [1, 0] [0, 0, 1]).phases = [.relaying 1, .relaying 0] ∧
    (execSchedule [1, 0] [0, 0, 1]).cancelled = [true, false] ∧
    (execSchedule [1, 0] [0, 0, 1, 1, 0]).phases = [.finished true, .finished true] := by
  decide

/-- C1 (amended): the prologue of a new run cancels the token source recorded
on the instance before installing its own — so at most one token source is
ever recorded and the recorded one is cancelled before being replaced — and a
previous run that reaches a *further* chunk-boundary check after being
cancelled fails without producing output.  (A cancelled run past its final
check can nonetheless still return output, as the counterexample shows.) -/
theorem stepRun_cancel_then_install
    (chunks : List Nat) (s : CompileState) (r : Nat) :
    (s.phases[r]? = some .idle →
      (stepRun chunks s r).tokenField = some r ∧
      ∀ p : Nat, s.tokenField = some p → p < s.cancelled.length →
        (stepRun chunks s r).cancelled[p]? = some true) ∧
    (∀ k : Nat, s.phases[r]? = some (.relaying k) → k < chunks.getD r 0 →
      s.cancelled.getD r false = true →
      (stepRun chunks s r).phases[r]? = some (.finished false)) := by
  constructor
  · intro hidle
    constructor
    · simp only [stepRun, hidle]
    · intro p hp hlen
      simp only [stepRun, hidle, hp]
      exact List.getElem?_set_self (by simpa using hlen)
  · intro k hrel hk hcanc
    have hr : r < s.phases.length := by
      have := List.getElem?_eq_some_iff.mp hrel
      exact this.1
    simp only [stepRun, hrel, if_pos hk, hcanc, if_true]
    exact List.getElem?_set_self (by simpa using hr)

/-- C1, witness: with run 0 mid-relay and holding the token, run 1's prologue
installs its own token and cancels run 0's; and a cancelled run that still
has a chunk check ahead fails at that check. -/
theorem stepRun_cancel_then_install_witness :
    ((stepRun [1, 0] ⟨[false, false], some 0, [.relaying 0, .idle]⟩ 1).tokenField = some 1 ∧
      (stepRun [1, 0] ⟨[false, false], some 0, [.relaying 0, .idle]⟩ 1).cancelled[0]? =
        some true) ∧
    (stepRun [1, 0] ⟨[true, false], some 1, [.relaying 0, .relaying 0]⟩ 0).phases[0]? =
      some (.finished false) :=
  ⟨⟨((stepRun_cancel_then_install [1, 0]
        ⟨[false, false], some 0, [.relaying 0, .idle]⟩ 1).1 (by decide)).1,
    ((stepRun_cancel_then_install [1, 0]
        ⟨[false, false], some 0, [.relaying 0, .idle]⟩ 1).1 (by decide)).2 0
      (by decide) (by decide)⟩,
    (stepRun_cancel_then_install [1, 0]
        ⟨[true, false], some 1, [.relaying 0, .relaying 0]⟩ 0).2 0
      (by decide) (by decide) (by decide)⟩

/-!
## C6: cancellation checks during the relay
-/

/-- A relay loop whose polls all come back false consumes every chunk. -/
theorem relayLoop_no_cancel (ctok : Nat → Bool) :
    ∀ (chunks : List String) (p : Nat),
      (∀ j, p ≤ j → j < p + chunks.length → ctok j = false) →
      relayLoop ctok p chunks = (p + chunks.length, chunks, false) := by
  intro chunks
  induction chunks with
  | nil => intro p _; simp [relayLoop]
  | cons c cs ih =>
    intro p h
    have h0 : ctok p = false :=
      h p (Nat.le_refl p) (by simp only [List.length_cons]; omega)
    have hrec : relayLoop ctok (p + 1) cs = (p + 1 + cs.length, cs, false) :=
      ih (p + 1) (fun j hj1 hj2 =>
        h j (by omega) (by simp only [List.length_cons]; omega))
    rw [show p + (c :: cs).length = p + 1 + cs.length from by
      simp only [List.length_cons]; omega]
    simp only [relayLoop, h0, Bool.false_eq_true, if_false, hrec]

/-- A relay loop that is first cancelled at poll `k` (with the loop still
running then) consumes exactly the chunks before the `k`-th check and reports
cancellation. -/
theorem relayLoop_cancel (ctok : Nat → Bool) :
    ∀ (chunks : List String) (p k : Nat), p ≤ k → k < p + chunks.length →
      (∀ j, p ≤ j → j < k → ctok j = false) → ctok k = true →
      relayLoop ctok p chunks = (k + 1, chunks.take (k - p), true) := by
  intro chunks
  induction chunks with
  | nil => intro p k h1 h2 _ _; simp at h2; omega
  | cons c cs ih =>
    intro p k hpk hk hfirst hc
    by_cases hek : p = k
    · subst hek
      simp [relayLoop, hc]
    · have hlt : p < k := Nat.lt_of_le_of_ne hpk hek
      have h0 : ctok p = false := hfirst p (Nat.le_refl p) hlt
      have hrec : relayLoop ctok (p + 1) cs = (k + 1, cs.take (k - (p + 1)), true) :=
        ih (p + 1) k (by omega) (by simp at hk ⊢; omega)
          (fun j hj1 hj2 => hfirst j (by omega) hj2) hc
      simp only [relayLoop, h0, Bool.false_eq_true, if_false, hrec]
      have htake : (c :: cs).take (k - p) = c :: cs.take (k - (p + 1)) := by
        have : k - p = (k - (p + 1)) + 1 := by omega
        rw [this, List.take_succ_cons]
      rw [htake]

/-- C6: the cancellation token is polled before every chunk relay — both
before each compiler-output chunk is written to the demangler's input and
before each demangler-output chunk is collected.  If the token first reads
cancelled at poll `k` during the compiler loop, the run throws the
cancellation failure with only the first `k` compiler chunks written and both
subprocesses killed; if it first reads cancelled during the demangler loop
(the compiler having passed its exit check), the run likewise throws
cancellation with both subprocesses killed. -/
theorem runCompiler_cancellation
    (ctok : Nat → Bool) (cxx cxxfilt : Subproc) (k : Nat)
    (hfirst : ∀ j, j < k → ctok j = false) (hk : ctok k = true) :
    (k < cxx.stdoutChunks.length →
      runCompilerModel ctok cxx cxxfilt =
        ⟨.error .cancelled, true, true, cxx.stdoutChunks.take k⟩) ∧
    ((checkStdErr cxx).ok = true → cxx.stdoutChunks.length ≤ k →
      k < cxx.stdoutChunks.length + cxxfilt.stdoutChunks.length →
      runCompilerModel ctok cxx cxxfilt =
        ⟨.error .cancelled, true, true, cxx.stdoutChunks⟩) := by
  constructor
  · intro hlen
    have h1 : relayLoop ctok 0 cxx.stdoutChunks =
        (k + 1, cxx.stdoutChunks.take (k - 0), true) :=
      relayLoop_cancel ctok cxx.stdoutChunks 0 k (Nat.zero_le k) (by omega)
        (fun j _ hj => hfirst j hj) hk
    simp only [runCompilerModel, h1, if_true, Nat.sub_zero]
  · intro hok hge hlt
    have h1 : relayLoop ctok 0 cxx.stdoutChunks =
        (0 + cxx.stdoutChunks.length, cxx.stdoutChunks, false) :=
      relayLoop_no_cancel ctok cxx.stdoutChunks 0
        (fun j _ hj => hfirst j (by omega))
    have h2 : relayLoop ctok (0 + cxx.stdoutChunks.length) cxxfilt.stdoutChunks =
        (k + 1, cxxfilt.stdoutChunks.take (k - (0 + cxx.stdoutChunks.length)), true) :=
      relayLoop_cancel ctok cxxfilt.stdoutChunks (0 + cxx.stdoutChunks.length) k
        (by omega) (by omega) (fun j hj1 hj2 => hfirst j hj2) hk
    simp only [runCompilerModel, h1, h2, hok, Bool.not_true, Bool.false_eq_true,
      if_false, if_true]

/-- C6, witness: a token that first reads cancelled at poll 1, with three
compiler chunks pending: the run throws the cancellation failure after
relaying only the first chunk, and both subprocesses are killed. -/
theorem runCompiler_cancellation_witness :
    ((fun j => decide (1 ≤ j)) 1 = true) ∧
    (1 < (["a", "b", "c"] : List String).length) ∧
    runCompilerModel (fun j => decide (1 ≤ j))
        ⟨["a", "b", "c"], "", 0, false⟩ ⟨["x"], "", 0, false⟩ =
      ⟨.error .cancelled, true, true, (["a", "b", "c"] : List String).take 1⟩ :=
  ⟨by decide, by decide,
    (runCompiler_cancellation (fun j => decide (1 ≤ j))
        ⟨["a", "b", "c"], "", 0, false⟩ ⟨["x"], "", 0, false⟩ 1
        (fun j hj => by simp only [decide_eq_false_iff_not]; omega)
        (by decide)).1 (by decide)⟩

/-!
## C7: non-empty standard error with exit status zero
-/

/-- C7: a subprocess with a clean spawn (`errorEvent = false`) passes
`checkStdErr` exactly when its exit code is zero — non-empty standard error
alone never fails it; non-empty standard error is logged to the output
channel and the channel is shown; and a full pipeline run whose two
subprocesses both exit zero (with no cancellation) returns the filtered
assembly even if a subprocess wrote to standard error. -/
theorem checkStdErr_tolerates_warnings
    (p cxx cxxfilt : Subproc) (ctok : Nat → Bool)
    (hp : p.errorEvent = false)
    (htok : ∀ j, ctok j = false)
    (hcxx : cxx.errorEvent = false) (hcxxCode : cxx.exitCode = 0)
    (hfilt : cxxfilt.errorEvent = false) (hfiltCode : cxxfilt.exitCode = 0) :
    ((checkStdErr p).ok = decide (p.exitCode = 0)) ∧
    (p.stderr ≠ "" →
      (checkStdErr p).logged = [p.stderr] ∧ (checkStdErr p).shown = true) ∧
    ((runCompilerModel ctok cxx cxxfilt).result =
      .ok (filterDirectives (String.join cxxfilt.stdoutChunks))) := by
  refine ⟨?_, ?_, ?_⟩
  · by_cases he : p.exitCode = 0 <;> simp [checkStdErr, hp, he]
  · intro hs
    have hlen : 0 < p.stderr.length := by
      cases hd : p.stderr.data with
      | nil =>
        have he : p.stderr = "" := by
          have hmk : p.stderr = String.mk p.stderr.data := rfl
          rw [hmk, hd]
        exact absurd he hs
      | cons c cs =>
        have hl : p.stderr.length = p.stderr.data.length := rfl
        rw [hl, hd]
        simp
    constructor
    · simp [checkStdErr, hlen]
    · simp [checkStdErr, hlen]
  · have h1 : relayLoop ctok 0 cxx.stdoutChunks =
        (0 + cxx.stdoutChunks.length, cxx.stdoutChunks, false) :=
      relayLoop_no_cancel ctok cxx.stdoutChunks 0 (fun j _ _ => htok j)
    have h2 : relayLoop ctok (0 + cxx.stdoutChunks.length) cxxfilt.stdoutChunks =
        (0 + cxx.stdoutChunks.length + cxxfilt.stdoutChunks.length,
          cxxfilt.stdoutChunks, false) :=
      relayLoop_no_cancel ctok cxxfilt.stdoutChunks _ (fun j _ _ => htok j)
    have hokc : (checkStdErr cxx).ok = true := by simp [checkStdErr, hcxx, hcxxCode]
    have hokf : (checkStdErr cxxfilt).ok = true := by
      simp [checkStdErr, hfilt, hfiltCode]
    simp only [runCompilerModel, h1, h2, hokc, hokf, Bool.not_true,
      Bool.false_eq_true, if_false]

/-- The subprocess of the C7 witness: non-empty standard error, exit zero. -/
def procWarn : Subproc := ⟨[], "warning: unused variable", 0, false⟩

/-- The compiler subprocess of the C7 witness. -/
def cxxRun : Subproc := ⟨["\t.text\n", "main:\n\tret\n"], "warning: w", 0, false⟩

/-- The demangler subprocess of the C7 witness. -/
def filtRun : Subproc := ⟨["\t.text\nmain:\n\tret\n"], "", 0, false⟩

/-- C7, witness: a process with standard-error text and exit code zero passes
`checkStdErr` with its text logged and the channel shown, and the full run —
whose compiler also wrote a warning — still returns the assembly text. -/
theorem checkStdErr_tolerates_warnings_witness :
    (procWarn.errorEvent = false ∧ procWarn.stderr ≠ "") ∧
    ((checkStdErr procWarn).logged = [procWarn.stderr] ∧
      (checkStdErr procWarn).shown = true) ∧
    (runCompilerModel (fun _ => false) cxxRun filtRun).result =
      .ok (filterDirectives (String.join filtRun.stdoutChunks)) :=
  ⟨⟨rfl, by decide⟩,
    (checkStdErr_tolerates_warnings procWarn cxxRun filtRun (fun _ => false)
      rfl (fun _ => rfl) rfl rfl rfl rfl).2.1 (by decide),
    (checkStdErr_tolerates_warnings procWarn cxxRun filtRun (fun _ => false)
      rfl (fun _ => rfl) rfl rfl rfl rfl).2.2⟩

/-!
## C5: the demangler-name guessing fallback
-/

/-- The fallback expression at the end of `findCxxFiltExe` (`src/compdb.ts`):
the chained-substitution name joined back into a path if that path exists,
else the bare `c++filt`. -/
def guessFallback (fs : FSModel) (parsed : ParsedPath) : String :=
  let cxxfilt := pathJoin3 parsed.dir (guessCxxFiltName parsed.name) parsed.ext
  if fs.existsSync cxxfilt then cxxfilt else cxxfiltExe

/-- The C5 filesystem: `/usr/bin` holds only `c++filtfilt` (which does not
end in `c++filt`, so the directory scan finds nothing), the path
`/usr/bin/c++filtfilt` exists, and `/usr/bin/c++filt` does not. -/
def fsDemo : FSModel :=
  ⟨fun d => if d = "/usr/bin" then some ["c++filtfilt"] else some [],
    fun p => p == "/usr/bin/c++filtfilt",
    fun _ => none⟩

/-- C5, counterexample: for the compiler `/usr/bin/clang++` the claim's
first-match-wins substitution would produce the name `c++filt` and candidate
path `/usr/bin/c++filt`; that path does not exist on `fsDemo`, so the claim
predicts the bare name `c++filt`.  The code instead chains all six
substitutions — `clang++` is first rewritten to `c++filt`, whose own `c++`
fragment is then rewritten again, yielding `c++filtfilt` — and returns
`/usr/bin/c++filtfilt`, which is neither the claim's candidate path nor the
bare demangler name. -/
theorem findCxxFiltExe_first_match_cex :
    guessCxxFiltName "clang++" = "c++filtfilt" ∧
    fsDemo.existsSync "/usr/bin/c++filt" = false ∧
    findCxxFiltExe fsDemo "/usr/bin/clang++" = some "/usr/bin/c++filtfilt" ∧
    findCxxFiltExe fsDemo "/usr/bin/clang++" ≠ some cxxfiltExe ∧
    findCxxFiltExe fsDemo "/usr/bin/clang++" ≠ some "/usr/bin/c++filt" := by
  decide

/-- C5 (amended): when the directory search finds no file ending in the
demangler name plus the compiler's extension (and, for a directory-less
compiler path, when the PATH probe yields nothing), `findCxxFiltExe` rewrites
the compiler's base name by applying all six substitutions `clang++`,
`clang`, `g++`, `gcc`, `c++`, `cc` in sequence — each replacing the first
occurrence in the current string, so an earlier result can be rewritten again
(`clang++` becomes `c++filtfilt`) — returns the rejoined path if it exists on
disk, and otherwise the bare demangler name; it never fails when the
directory listing succeeds. -/
theorem findCxxFiltExe_chained_guess
    (fs : FSModel) (compExe : String) (files : List String) :
    ((posixParse compExe).dir.length ≠ 0 →
      fs.readdir (posixParse compExe).dir = some files →
      (∀ f ∈ files,
        jsEndsWith f (cxxfiltExe ++ (posixParse compExe).ext) = false) →
      findCxxFiltExe fs compExe = some (guessFallback fs (posixParse compExe))) ∧
    ((posixParse compExe).dir.length = 0 →
      findExecutablePath fs compExe = none →
      findCxxFiltExe fs compExe = some (guessFallback fs (posixParse compExe))) := by
  constructor
  · intro hdir hread hnomatch
    have hfind : files.find?
        (fun f => jsEndsWith f (cxxfiltExe ++ (posixParse compExe).ext)) = none :=
      List.find?_eq_none.mpr (fun x hx => by simp [hnomatch x hx])
    simp only [findCxxFiltExe, findExePath, if_neg hdir, hread, hfind,
      Option.map_none', guessFallback]
  · intro hdir hwhich
    simp only [findCxxFiltExe, findExePath, if_pos hdir, hwhich, guessFallback]

/-- C5, witness: on `fsDemo` the compiler `/usr/bin/clang++` takes the
directory-search branch, the scan of `/usr/bin` matches nothing, and the
fallback returns the chained-substitution path `/usr/bin/c++filtfilt` (which
exists there). -/
theorem findCxxFiltExe_chained_guess_witness :
    ((posixParse "/usr/bin/clang++").dir.length ≠ 0) ∧
    (fsDemo.readdir (posixParse "/usr/bin/clang++").dir = some ["c++filtfilt"]) ∧
    (∀ f ∈ (["c++filtfilt"] : List String),
      jsEndsWith f (cxxfiltExe ++ (posixParse "/usr/bin/clang++").ext) = false) ∧
    findCxxFiltExe fsDemo "/usr/bin/clang++" =
      some (guessFallback fsDemo (posixParse "/usr/bin/clang++")) :=
  ⟨by decide, by decide, by decide,
    (findCxxFiltExe_chained_guess fsDemo "/usr/bin/clang++" ["c++filtfilt"]).1
      (by decide) (by decide) (by decide)⟩
